import Mathlib

/-!
Shallow embedding of the `exchanges` limit-order-book matching engine and
settlement layer (Rust sources: `order.rs`, `orderbook.rs`, `matching.rs`,
`account_manager.rs`, `market.rs`, `exchange.rs`).

Machine integers: all Rust scalars are `u64`; they are embedded as `Nat`,
with an explicit `% 2^64` at the arithmetic sites where overflow is
possible (`price * quantity` notionals and balance credits).  Checked
subtractions in the source are guarded by explicit comparisons, so `Nat`
truncated subtraction agrees with them.

Rust `HashMap`s (balances, accounts, market registry) are embedded as
association lists with first-match lookup; `BTreeMap`s (the two book
sides) as key-sorted association lists whose head is the least key.

The matching loop in `find_bid_matches` / `find_ask_matches` repeatedly
re-reads the head level of an immutable book; when that level's total
quantity is zero the Rust loop never terminates.  The embedding makes the
loop total with a fuel argument equal to the remaining quantity (each
iteration that makes progress strictly decreases the remainder, so this
fuel is always sufficient) and returns `none` exactly on the Rust
divergence, which `process_order` propagates as `Option`.
-/

namespace Exchanges

/-- Side of an order (`order.rs`). -/
inductive Side where
  | Bid
  | Ask
deriving DecidableEq, Repr

/-- A limit order (`order.rs`).  `account_id` is the interned account
string; prices, quantities, ids and timestamps are `u64` scalars. -/
structure Order where
  id : Nat
  price : Nat
  quantity : Nat
  side : Side
  account_id : String
  timestamp : Nat
deriving DecidableEq, Repr

/-- Modulus of `u64` arithmetic. -/
def U64MOD : Nat := 2 ^ 64

/-- Largest `u64` value, used by the bid-key negation. -/
def U64MAX : Nat := 2 ^ 64 - 1

/-- NegatedPrice construction (`order.rs`, `From<Price> for NegatedPrice`):
`u64::MAX - price`.  `NegatedPrice::new` and `NegatedPrice::from_price`
both produce this key. -/
def negPrice (p : Nat) : Nat := U64MAX - p

/-- Conversion back (`order.rs`, `From<NegatedPrice> for Price`):
`u64::MAX - negated`. -/
def negToPrice (np : Nat) : Nat := U64MAX - np

/-- A trade record (`matching.rs`). -/
structure Trade where
  ask_order_id : Nat
  bid_order_id : Nat
  ask_account_id : String
  bid_account_id : String
  price : Nat
  quantity : Nat
deriving DecidableEq, Repr

/-- Deferred book update recorded by the matching pass (`matching.rs`). -/
inductive OrderUpdate where
  | Remove
  | Update (q : Nat)
deriving DecidableEq, Repr

/-- Association-list lookup: first entry with the given key (models
`HashMap::get` / `BTreeMap::get`). -/
def alookup {α β : Type} [DecidableEq α] (k : α) : List (α × β) → Option β
  | [] => none
  | (k', v) :: rest => if k' = k then some v else alookup k rest

/-- Replace the value at the first entry with the given key; no change if
the key is absent. -/
def aset {α β : Type} [DecidableEq α] (k : α) (v : β) : List (α × β) → List (α × β)
  | [] => []
  | (k', v') :: rest => if k' = k then (k', v) :: rest else (k', v') :: aset k v rest

/-- Replace the value at the key if present, else append a fresh entry
(models `HashMap` insertion / `entry().or_insert` followed by a write). -/
def asetOrAppend {α β : Type} [DecidableEq α] (k : α) (v : β) (l : List (α × β)) :
    List (α × β) :=
  if (alookup k l).isSome then aset k v l else l ++ [(k, v)]

/-- Remove the first entry with the given key (models map `remove`). -/
def adrop {α β : Type} [DecidableEq α] (k : α) : List (α × β) → List (α × β)
  | [] => []
  | (k', v') :: rest => if k' = k then rest else (k', v') :: adrop k rest

/-- Strictly increasing keys: the invariant of a `BTreeMap` embedded as an
association list. -/
def keysSorted {β : Type} : List (Nat × β) → Bool
  | [] => true
  | [_] => true
  | a :: b :: rest => decide (a.1 < b.1) && keysSorted (b :: rest)

/-- The two-sided book (`orderbook.rs`): bids keyed by negated price,
asks keyed by price, both ascending so the head of each list is the best
level. -/
structure OrderBook where
  bids : List (Nat × List Order)
  asks : List (Nat × List Order)
deriving DecidableEq, Repr

/-- Insert an order at its key into a sorted ladder, appending to the
level queue when the level exists (`BTreeMap::entry().or_insert_with`
followed by `push`). -/
def insertLevel (k : Nat) (o : Order) : List (Nat × List Order) → List (Nat × List Order)
  | [] => [(k, [o])]
  | (k', os) :: rest =>
    if k < k' then (k, [o]) :: (k', os) :: rest
    else if k = k' then (k', os ++ [o]) :: rest
    else (k', os) :: insertLevel k o rest

/-- OrderBook::insert_order: bids get their price field rewritten through
the negation round trip and are stored under the negated key; asks are
stored as-is. -/
def OrderBook.insertOrder (b : OrderBook) (o : Order) : OrderBook :=
  match o.side with
  | Side.Bid =>
    let np := negPrice o.price
    let o' := { o with price := negToPrice np }
    { b with bids := insertLevel np o' b.bids }
  | Side.Ask => { b with asks := insertLevel o.price o b.asks }

/-- Remove the first order with the given id from a level queue, keeping
the relative order of the rest (`Vec::remove` at the found position). -/
def removeFromQueue (oid : Nat) : List Order → Option (Order × List Order)
  | [] => none
  | o :: rest =>
    if o.id = oid then some (o, rest)
    else (removeFromQueue oid rest).map (fun r => (r.1, o :: r.2))

/-- OrderBook::remove_order: look up the level at the side+price key, drop
the first order with the id, and if the queue became empty remove the
level keyed by the removed order's own side and price. -/
def OrderBook.removeOrder (b : OrderBook) (oid : Nat) (side : Side) (price : Nat) :
    Option Order × OrderBook :=
  let key := match side with
    | Side.Bid => negPrice price
    | Side.Ask => price
  let queues := match side with
    | Side.Bid => b.bids
    | Side.Ask => b.asks
  match alookup key queues with
  | none => (none, b)
  | some os =>
    match removeFromQueue oid os with
    | none => (none, b)
    | some (ord, rest) =>
      let b1 := match side with
        | Side.Bid => { b with bids := aset key rest b.bids }
        | Side.Ask => { b with asks := aset key rest b.asks }
      let b2 :=
        if rest.isEmpty then
          match ord.side with
          | Side.Bid => { b1 with bids := adrop (negPrice ord.price) b1.bids }
          | Side.Ask => { b1 with asks := adrop ord.price b1.asks }
        else b1
      (some ord, b2)

/-- Rewrite the quantity of the first order with the given id in a queue. -/
def setQtyFirst (oid : Nat) (q : Nat) : List Order → List Order
  | [] => []
  | o :: rest =>
    if o.id = oid then { o with quantity := q } :: rest
    else o :: setQtyFirst oid q rest

/-- Scan the ladder levels in order; in the first level containing the id,
rewrite that order's quantity and stop (`update_order_quantity`'s
find-then-break loop). -/
def updateInLadder (oid : Nat) (q : Nat) : List (Nat × List Order) → List (Nat × List Order)
  | [] => []
  | (k, os) :: rest =>
    if os.any (fun o => o.id = oid) then (k, setQtyFirst oid q os) :: rest
    else (k, os) :: updateInLadder oid q rest

/-- OrderBook::update_order_quantity. -/
def OrderBook.updateOrderQuantity (b : OrderBook) (oid : Nat) (side : Side) (q : Nat) :
    OrderBook :=
  match side with
  | Side.Bid => { b with bids := updateInLadder oid q b.bids }
  | Side.Ask => { b with asks := updateInLadder oid q b.asks }

/-- Best bid price in original form (`get_best_bid`). -/
def OrderBook.getBestBid (b : OrderBook) : Option Nat :=
  b.bids.head?.map (fun l => negToPrice l.1)

/-- Best ask price (`get_best_ask`). -/
def OrderBook.getBestAsk (b : OrderBook) : Option Nat :=
  b.asks.head?.map (fun l => l.1)

/-- One pass of the inner `for` loop of `find_bid_matches` over the queue
at the best ask level: emit a trade and a deferred update for each resting
ask with positive matchable quantity, stopping when the remainder hits
zero.  Returns the trades, the updates and the remaining quantity. -/
def bidPass (bid : Order) (askPrice : Nat) (r : Nat) :
    List Order → List Trade × List (Nat × OrderUpdate) × Nat
  | [] => ([], [], r)
  | ask :: rest =>
    let m := min r ask.quantity
    if 0 < m then
      let t : Trade :=
        { ask_order_id := ask.id, bid_order_id := bid.id,
          ask_account_id := ask.account_id, bid_account_id := bid.account_id,
          price := askPrice, quantity := m }
      let u := if ask.quantity = m then (ask.id, OrderUpdate.Remove)
               else (ask.id, OrderUpdate.Update (ask.quantity - m))
      let r' := r - m
      if r' = 0 then ([t], [u], 0)
      else
        let res := bidPass bid askPrice r' rest
        (t :: res.1, u :: res.2.1, res.2.2)
    else bidPass bid askPrice r rest

/-- The `while remaining_qty > 0` loop of `find_bid_matches`.  The book is
immutable during the scan, so every iteration sees the same best ask
level; the fuel equals the initial remainder, which bounds the number of
progressing iterations, and `none` is returned exactly when an iteration
makes no progress (the Rust loop then never terminates). -/
def bidLoopAux (bid : Order) (askPrice : Nat) (orders : List Order) :
    Nat → Nat → Option (List Trade × List (Nat × OrderUpdate))
  | _, 0 => some ([], [])
  | 0, _ + 1 => none
  | fuel + 1, r + 1 =>
    let res := bidPass bid askPrice (r + 1) orders
    if res.2.2 < r + 1 then
      match bidLoopAux bid askPrice orders fuel res.2.2 with
      | some p => some (res.1 ++ p.1, res.2.1 ++ p.2)
      | none => none
    else none

/-- MatchingEngine::find_bid_matches: if the best ask level crosses the
bid price, run the matching loop (which drives the remainder to zero);
otherwise return no trades and the untouched remainder. -/
def findBidMatches (b : OrderBook) (bid : Order) :
    Option (List Trade × List (Nat × OrderUpdate) × Nat) :=
  match b.asks.head? with
  | some (p, os) =>
    if p ≤ bid.price then
      (bidLoopAux bid p os bid.quantity bid.quantity).map (fun x => (x.1, x.2, 0))
    else some ([], [], bid.quantity)
  | none => some ([], [], bid.quantity)

/-- One pass of the inner loop of `find_ask_matches` over the best bid
level's queue; `bidPrice` is the level key converted back to an original
price, which is also the emitted trade price. -/
def askPass (ask : Order) (bidPrice : Nat) (r : Nat) :
    List Order → List Trade × List (Nat × OrderUpdate) × Nat
  | [] => ([], [], r)
  | bid :: rest =>
    let m := min r bid.quantity
    if 0 < m then
      let t : Trade :=
        { ask_order_id := ask.id, bid_order_id := bid.id,
          ask_account_id := ask.account_id, bid_account_id := bid.account_id,
          price := bidPrice, quantity := m }
      let u := if bid.quantity = m then (bid.id, OrderUpdate.Remove)
               else (bid.id, OrderUpdate.Update (bid.quantity - m))
      let r' := r - m
      if r' = 0 then ([t], [u], 0)
      else
        let res := askPass ask bidPrice r' rest
        (t :: res.1, u :: res.2.1, res.2.2)
    else askPass ask bidPrice r rest

/-- The `while` loop of `find_ask_matches`, fueled like `bidLoopAux`. -/
def askLoopAux (ask : Order) (bidPrice : Nat) (orders : List Order) :
    Nat → Nat → Option (List Trade × List (Nat × OrderUpdate))
  | _, 0 => some ([], [])
  | 0, _ + 1 => none
  | fuel + 1, r + 1 =>
    let res := askPass ask bidPrice (r + 1) orders
    if res.2.2 < r + 1 then
      match askLoopAux ask bidPrice orders fuel res.2.2 with
      | some p => some (res.1 ++ p.1, res.2.1 ++ p.2)
      | none => none
    else none

/-- MatchingEngine::find_ask_matches: the best bid level is taken when its
de-negated price is at least the ask price. -/
def findAskMatches (b : OrderBook) (ask : Order) :
    Option (List Trade × List (Nat × OrderUpdate) × Nat) :=
  match b.bids.head? with
  | some (np, os) =>
    if ask.price ≤ negToPrice np then
      (askLoopAux ask (negToPrice np) os ask.quantity ask.quantity).map (fun x => (x.1, x.2, 0))
    else some ([], [], ask.quantity)
  | none => some ([], [], ask.quantity)

/-- Apply the deferred updates of a bid's matching pass: removals are
attempted on the ask side at the incoming bid's price (as in the source),
quantity rewrites scan the ask ladder by id. -/
def applyAskUpdates (bidPrice : Nat) : OrderBook → List (Nat × OrderUpdate) → OrderBook
  | b, [] => b
  | b, (oid, OrderUpdate.Remove) :: rest =>
    applyAskUpdates bidPrice (b.removeOrder oid Side.Ask bidPrice).2 rest
  | b, (oid, OrderUpdate.Update q) :: rest =>
    applyAskUpdates bidPrice (b.updateOrderQuantity oid Side.Ask q) rest

/-- Apply the deferred updates of an ask's matching pass: removals are
attempted on the bid side at the incoming ask's price. -/
def applyBidUpdates (askPrice : Nat) : OrderBook → List (Nat × OrderUpdate) → OrderBook
  | b, [] => b
  | b, (oid, OrderUpdate.Remove) :: rest =>
    applyBidUpdates askPrice (b.removeOrder oid Side.Bid askPrice).2 rest
  | b, (oid, OrderUpdate.Update q) :: rest =>
    applyBidUpdates askPrice (b.updateOrderQuantity oid Side.Bid q) rest

/-- MatchingEngine (`matching.rs`): a wrapper around the book. -/
structure MatchingEngine where
  orderbook : OrderBook
deriving DecidableEq, Repr

/-- MatchingEngine::process_bid: find the matches, then either apply the
deferred updates (when any trade happened) or insert the bid, whose
quantity was rewritten to the remainder, onto the book. -/
def MatchingEngine.processBid (e : MatchingEngine) (bid : Order) :
    Option (List Trade × MatchingEngine) :=
  match findBidMatches e.orderbook bid with
  | none => none
  | some (trades, updates, rem) =>
    let bid' := { bid with quantity := rem }
    if trades.isEmpty then some (trades, ⟨e.orderbook.insertOrder bid'⟩)
    else some (trades, ⟨applyAskUpdates bid'.price e.orderbook updates⟩)

/-- MatchingEngine::process_ask. -/
def MatchingEngine.processAsk (e : MatchingEngine) (ask : Order) :
    Option (List Trade × MatchingEngine) :=
  match findAskMatches e.orderbook ask with
  | none => none
  | some (trades, updates, rem) =>
    let ask' := { ask with quantity := rem }
    if trades.isEmpty then some (trades, ⟨e.orderbook.insertOrder ask'⟩)
    else some (trades, ⟨applyBidUpdates ask'.price e.orderbook updates⟩)

/-- MatchingEngine::process_order: dispatch on the side. -/
def MatchingEngine.processOrder (e : MatchingEngine) (o : Order) :
    Option (List Trade × MatchingEngine) :=
  match o.side with
  | Side.Bid => e.processBid o
  | Side.Ask => e.processAsk o

/-- MatchingEngine::cancel_order. -/
def MatchingEngine.cancelOrder (e : MatchingEngine) (oid : Nat) (side : Side) (price : Nat) :
    Option Order × MatchingEngine :=
  let r := e.orderbook.removeOrder oid side price
  (r.1, ⟨r.2⟩)

/-- An asset (`asset.rs`): an interned symbol. -/
abbrev Asset := String

/-- A market pair (`exchange.rs`): numeraire and base asset, used as an
exact equality key in the market registry. -/
structure Pair where
  numeraire : Asset
  base : Asset
deriving DecidableEq, Repr

/-- An account (`account.rs`): balances keyed by asset, plus the (never
written in the embedded operations) per-asset order index. -/
structure Account where
  id : String
  balances : List (Asset × Nat)
  orders : List (Asset × List (Nat × (Side × Nat)))
deriving DecidableEq, Repr

/-- Account::new. -/
def Account.new (aid : String) : Account := ⟨aid, [], []⟩

/-- AccountManager (`account_manager.rs`): accounts keyed by id. -/
structure AccountManager where
  accounts : List (String × Account)
deriving DecidableEq, Repr

/-- AccountManager::new. -/
def AccountManager.new : AccountManager := ⟨[]⟩

/-- AccountManager::add_balance: create the account on first touch, then
add the amount to the (zero-defaulted) balance entry, with `u64`
wraparound. -/
def AccountManager.addBalance (am : AccountManager) (aid : String) (asset : Asset)
    (amount : Nat) : AccountManager :=
  let acct := (alookup aid am.accounts).getD (Account.new aid)
  let b := (alookup asset acct.balances).getD 0
  let acct' := { acct with balances := asetOrAppend asset ((b + amount) % U64MOD) acct.balances }
  ⟨asetOrAppend aid acct' am.accounts⟩

/-- AccountManager::remove_balance: fail if the account is unknown;
otherwise materialise a zero entry for the asset (the source's
`entry(asset).or_insert(0)`), fail if the balance is short — with the
zero entry left behind — and else subtract.  The mutated manager is
returned alongside the result, as the Rust method mutates `self` before
an insufficient-balance return. -/
def AccountManager.removeBalance (am : AccountManager) (aid : String) (asset : Asset)
    (amount : Nat) : AccountManager × Except String Unit :=
  match alookup aid am.accounts with
  | none => (am, Except.error "Account not found")
  | some acct =>
    let balances1 :=
      if (alookup asset acct.balances).isSome then acct.balances
      else acct.balances ++ [(asset, 0)]
    let b := (alookup asset acct.balances).getD 0
    if b < amount then
      (⟨asetOrAppend aid { acct with balances := balances1 } am.accounts⟩,
        Except.error "Insufficient balance")
    else
      (⟨asetOrAppend aid { acct with balances := aset asset (b - amount) balances1 }
          am.accounts⟩,
        Except.ok ())

/-- A market (`market.rs`): a pair bound to a matching engine. -/
structure Market where
  pair : Pair
  matching_engine : MatchingEngine
deriving DecidableEq, Repr

/-- Market::new: a fresh empty book. -/
def Market.new (p : Pair) : Market := ⟨p, ⟨⟨[], []⟩⟩⟩

/-- Market::process_order. -/
def Market.processOrder (m : Market) (o : Order) : Option (List Trade × Market) :=
  (m.matching_engine.processOrder o).map (fun r => (r.1, { m with matching_engine := r.2 }))

/-- Market::cancel_order. -/
def Market.cancelOrder (m : Market) (oid : Nat) (side : Side) (price : Nat) :
    Option Order × Market :=
  let r := m.matching_engine.cancelOrder oid side price
  (r.1, { m with matching_engine := r.2 })

/-- The Exchange (`exchange.rs`): the market registry and the ledger. -/
structure Exchange where
  markets : List (Pair × Market)
  account_manager : AccountManager
deriving DecidableEq, Repr

/-- Exchange::new. -/
def Exchange.new : Exchange := ⟨[], AccountManager.new⟩

/-- Exchange::add_market: register a market under its own pair. -/
def Exchange.addMarket (ex : Exchange) (m : Market) : Exchange :=
  { ex with markets := asetOrAppend m.pair m ex.markets }

/-- Exchange::add_balance. -/
def Exchange.addBalance (ex : Exchange) (aid : String) (asset : Asset) (amount : Nat) :
    Exchange :=
  { ex with account_manager := ex.account_manager.addBalance aid asset amount }

/-- Exchange::remove_balance. -/
def Exchange.removeBalance (ex : Exchange) (aid : String) (asset : Asset) (amount : Nat) :
    Exchange × Except String Unit :=
  let r := ex.account_manager.removeBalance aid asset amount
  ({ ex with account_manager := r.1 }, r.2)

/-- The `markets.entry(pair).or_insert(Market::new(pair))` step: the
market found for the pair, and the registry with the fresh empty market
appended when the pair was absent. -/
def getOrInsertMarket (ms : List (Pair × Market)) (pr : Pair) :
    Market × List (Pair × Market) :=
  match alookup pr ms with
  | some m => (m, ms)
  | none => (Market.new pr, ms ++ [(pr, Market.new pr)])

/-- Exchange::post_order: debit the reservation (numeraire notional for a
bid, base quantity for an ask; notional multiplied in `u64`), propagating
a debit failure with the possibly-mutated ledger; then fetch-or-create
the market, process the order, write the market back, and credit both
sides of every returned trade.  `none` propagates matching-engine
divergence. -/
def Exchange.postOrder (ex : Exchange) (o : Order) (pr : Pair) :
    Option (Exchange × Except String Unit) :=
  let asset := match o.side with
    | Side.Bid => pr.numeraire
    | Side.Ask => pr.base
  let amt := match o.side with
    | Side.Bid => (o.quantity * o.price) % U64MOD
    | Side.Ask => o.quantity
  let rb := ex.account_manager.removeBalance o.account_id asset amt
  match rb.2 with
  | Except.error e => some ({ ex with account_manager := rb.1 }, Except.error e)
  | Except.ok _ =>
    let gm := getOrInsertMarket ex.markets pr
    match gm.1.processOrder o with
    | none => none
    | some (trades, mkt') =>
      let ms2 := aset pr mkt' gm.2
      let am2 := trades.foldl
        (fun am t =>
          (am.addBalance t.ask_account_id pr.numeraire ((t.quantity * t.price) % U64MOD)).addBalance
            t.bid_account_id pr.base t.quantity)
        rb.1
      some (⟨ms2, am2⟩, Except.ok ())

/-- Exchange::cancel_order: fetch-or-create the market (creating one even
for an unknown pair), forward the cancel, write the market back; on a
found order credit the refund keyed on the side argument, else report the
order as not found. -/
def Exchange.cancelOrder (ex : Exchange) (oid : Nat) (price : Nat) (side : Side)
    (pr : Pair) : Exchange × Except String Unit :=
  let gm := getOrInsertMarket ex.markets pr
  let rc := gm.1.cancelOrder oid side price
  let ms2 := aset pr rc.2 gm.2
  match rc.1 with
  | some ord =>
    let am' := match side with
      | Side.Bid =>
        ex.account_manager.addBalance ord.account_id pr.numeraire
          ((ord.quantity * ord.price) % U64MOD)
      | Side.Ask => ex.account_manager.addBalance ord.account_id pr.base ord.quantity
    (⟨ms2, am'⟩, Except.ok ())
  | none => (⟨ms2, ex.account_manager⟩, Except.error "Order not found")

/-- All orders resting on one side of the book, in ladder order. -/
def restingOrders (b : OrderBook) (s : Side) : List Order :=
  match s with
  | Side.Bid => b.bids.flatMap Prod.snd
  | Side.Ask => b.asks.flatMap Prod.snd

/-- The opposing side. -/
def oppSide : Side → Side
  | Side.Bid => Side.Ask
  | Side.Ask => Side.Bid

/-- The maker order id named by a trade, given the taker's side. -/
def makerIdOf (s : Side) (t : Trade) : Nat :=
  match s with
  | Side.Bid => t.ask_order_id
  | Side.Ask => t.bid_order_id

/-- The book of the market registered for a pair (the empty book when the
pair is unregistered). -/
def bookOf (ex : Exchange) (pr : Pair) : OrderBook :=
  ((alookup pr ex.markets).getD (Market.new pr)).matching_engine.orderbook

/-- The raw balance-map entry of an account for an asset in a ledger:
`none` when the account or the entry is absent. -/
def amEntry (am : AccountManager) (aid : String) (asset : Asset) : Option Nat :=
  (alookup aid am.accounts).bind (fun a => alookup asset a.balances)

/-- The raw balance-map entry of an account for an asset: `none` when the
account or the entry is absent. -/
def balanceEntry (ex : Exchange) (aid : String) (asset : Asset) : Option Nat :=
  amEntry ex.account_manager aid asset

/-- The balance value of an account for an asset, reading absence as 0. -/
def balOrZero (ex : Exchange) (aid : String) (asset : Asset) : Nat :=
  (balanceEntry ex aid asset).getD 0

/-- Sum of all accounts' balances in one asset. -/
def sumBalances (ex : Exchange) (asset : Asset) : Nat :=
  ex.account_manager.accounts.foldr (fun a acc => (alookup asset a.2.balances).getD 0 + acc) 0

/-- Total notional (price times quantity) of the resting bids of a book. -/
def bidNotional (b : OrderBook) : Nat :=
  (restingOrders b Side.Bid).foldr (fun o acc => o.price * o.quantity + acc) 0

/-- Total quantity of the resting asks of a book. -/
def askQtyTotal (b : OrderBook) : Nat :=
  (restingOrders b Side.Ask).foldr (fun o acc => o.quantity + acc) 0

/-- The conserved numeraire quantity of the spec: all balances in the
numeraire plus the notional of all resting bids of the pair's market. -/
def numeraireTotal (ex : Exchange) (pr : Pair) : Nat :=
  sumBalances ex pr.numeraire + bidNotional (bookOf ex pr)

/-- The conserved base quantity of the spec: all balances in the base
asset plus the quantity of all resting asks of the pair's market. -/
def baseTotal (ex : Exchange) (pr : Pair) : Nat :=
  sumBalances ex pr.base + askQtyTotal (bookOf ex pr)

/-- The asset debited at submission for an order. -/
def reserveAsset (pr : Pair) (o : Order) : Asset :=
  match o.side with
  | Side.Bid => pr.numeraire
  | Side.Ask => pr.base

/-- The amount debited at submission for an order. -/
def reserveAmt (o : Order) : Nat :=
  match o.side with
  | Side.Bid => (o.quantity * o.price) % U64MOD
  | Side.Ask => o.quantity

/-- An order is non-marketable on a book when the best opposing level does
not cross its price (or does not exist). -/
def nonMarketableB (b : OrderBook) (o : Order) : Bool :=
  match o.side with
  | Side.Bid =>
    match b.asks.head? with
    | none => true
    | some (p, _) => decide (o.price < p)
  | Side.Ask =>
    match b.bids.head? with
    | none => true
    | some (np, _) => decide (negToPrice np < o.price)

/-- No order anywhere on the book carries the given id. -/
def idFree (b : OrderBook) (oid : Nat) : Bool :=
  (b.bids.all fun l => l.2.all fun o => o.id != oid) &&
    (b.asks.all fun l => l.2.all fun o => o.id != oid)

/-- Both ladders carry strictly increasing keys (the `BTreeMap`
invariant). -/
def keysSortedBook (b : OrderBook) : Bool :=
  keysSorted b.bids && keysSorted b.asks

/-- Well-placed book: every resting order's side matches its ladder and
its price field equals its level's (de-negated) key.  This is what
`insert_order` establishes. -/
def wfBook (b : OrderBook) : Prop :=
  (∀ l ∈ b.asks, ∀ o ∈ l.2, o.side = Side.Ask ∧ o.price = l.1) ∧
    (∀ l ∈ b.bids, ∀ o ∈ l.2, o.side = Side.Bid ∧ o.price = negToPrice l.1)

/-- The refund credit of `cancel_order`, keyed on the side argument
(`exchange.rs`): numeraire notional for a bid, base quantity for an ask. -/
def refundFor (am : AccountManager) (ord : Order) (side : Side) (pr : Pair) :
    AccountManager :=
  match side with
  | Side.Bid =>
    am.addBalance ord.account_id pr.numeraire ((ord.quantity * ord.price) % U64MOD)
  | Side.Ask => am.addBalance ord.account_id pr.base ord.quantity

/-- The trade emitted in the C8 witness scenario. -/
def tC8w : Trade := ⟨1, 2, "m", "t", 8, 1⟩

/-- The side-dispatched matching pass of `process_order`: the trades, the
deferred updates and the remaining quantity after the matching loop. -/
def findMatches (b : OrderBook) (o : Order) :
    Option (List Trade × List (Nat × OrderUpdate) × Nat) :=
  match o.side with
  | Side.Bid => findBidMatches b o
  | Side.Ask => findAskMatches b o

/-- Scenario helper: the exchange state after a submit, keeping the old
state on divergence (never exercised in the concrete scenarios). -/
def exStep (ex : Exchange) (o : Order) (pr : Pair) : Exchange :=
  match ex.postOrder o pr with
  | some r => r.1
  | none => ex

/-- Book with a single resting ask of quantity 10 at price 100. -/
def bC1 : OrderBook := ⟨[], [(100, [⟨1, 100, 10, Side.Ask, "m", 1⟩])]⟩

/-- Incoming bid for quantity 15 at price 100 against `bC1`. -/
def oC1 : Order := ⟨2, 100, 15, Side.Bid, "t", 2⟩

/-- Book with a single resting ask of quantity 1 at price 8. -/
def bC5 : OrderBook := ⟨[], [(8, [⟨1, 8, 1, Side.Ask, "m", 1⟩])]⟩

/-- Incoming bid for quantity 1 at price 10 against `bC5`. -/
def oC5 : Order := ⟨2, 10, 1, Side.Bid, "t", 2⟩

/-- The (numeraire, base) pair of the settlement scenarios. -/
def prUB : Pair := ⟨"USD", "BTC"⟩

/-- Ledger scenario: ann holds 10 USD, bob holds 1 BTC, one registered
empty market for the pair. -/
def exC2 : Exchange :=
  ⟨[(prUB, Market.new prUB)],
   ⟨[("ann", ⟨"ann", [("USD", 10)], []⟩), ("bob", ⟨"bob", [("BTC", 1)], []⟩)]⟩⟩

/-- Bob's ask: quantity 1 at price 8. -/
def bobAsk : Order := ⟨1, 8, 1, Side.Ask, "bob", 1⟩

/-- Ann's bid: quantity 1 at price 10, crossing `bobAsk`. -/
def annBid : Order := ⟨2, 10, 1, Side.Bid, "ann", 2⟩

/-- State after bob's ask rests. -/
def exC2a : Exchange := exStep exC2 bobAsk prUB

/-- State after ann's crossing bid settles. -/
def exC2b : Exchange := exStep exC2a annBid prUB

/-- Failed-debit scenario: the account holds 5 BTC and no USD entry. -/
def exC6 : Exchange := ⟨[], ⟨[("a", ⟨"a", [("BTC", 5)], []⟩)]⟩⟩

/-- A bid requiring 10 USD, unaffordable in `exC6`. -/
def oC6 : Order := ⟨1, 10, 1, Side.Bid, "a", 1⟩

/-- Unknown-pair scenario: a funded account and an empty market registry. -/
def exC7 : Exchange := ⟨[], ⟨[("a", ⟨"a", [("USD", 10)], []⟩)]⟩⟩

/-- An affordable bid submitted to the unregistered pair of `exC7`. -/
def oC7 : Order := ⟨1, 10, 1, Side.Bid, "a", 1⟩

/-- Witness scenario book: a single ask of quantity 1 at price 8. -/
def bC8w : OrderBook := ⟨[], [(8, [⟨1, 8, 1, Side.Ask, "m", 1⟩])]⟩

/-- Witness order: a bid at price 10 crossing `bC8w`. -/
def oC8w : Order := ⟨2, 10, 1, Side.Bid, "t", 2⟩

/-- Round-trip scenario: one funded account, one registered empty market. -/
def exC9 : Exchange :=
  ⟨[(prUB, Market.new prUB)], ⟨[("a", ⟨"a", [("USD", 50), ("BTC", 7)], []⟩)]⟩⟩

/-- A non-marketable bid: quantity 3 at price 10 on the empty book. -/
def oC9 : Order := ⟨1, 10, 3, Side.Bid, "a", 1⟩

theorem alookup_mem {α β : Type} [DecidableEq α] {k : α} {v : β} :
    ∀ {l : List (α × β)}, alookup k l = some v → (k, v) ∈ l := by
  intro l
  induction l with
  | nil => intro h; simp [alookup] at h
  | cons e rest ih =>
    intro h
    by_cases he : e.1 = k
    · simp only [alookup, if_pos he] at h
      have : e = (k, v) := by
        cases e with
        | mk a bb =>
          simp only at he
          injection h with h'
          simp only at h'
          rw [he, h']
      rw [this]
      exact List.mem_cons_self _ _
    · simp only [alookup, if_neg he] at h
      exact List.mem_cons_of_mem _ (ih h)

theorem alookup_aset_self {α β : Type} [DecidableEq α] {k : α} (v : β) :
    ∀ {l : List (α × β)} {w : β}, alookup k l = some w → alookup k (aset k v l) = some v := by
  intro l
  induction l with
  | nil => intro w h; simp [alookup] at h
  | cons e rest ih =>
    intro w h
    by_cases he : e.1 = k
    · simp [alookup, aset, he]
    · simp only [alookup, aset] at h ⊢
      rw [if_neg he] at h
      rw [if_neg he]
      simp only [alookup]
      rw [if_neg he]
      exact ih h

theorem alookup_aset_ne {α β : Type} [DecidableEq α] {k k' : α} (v : β) (h : k' ≠ k) :
    ∀ (l : List (α × β)), alookup k' (aset k v l) = alookup k' l := by
  intro l
  induction l with
  | nil => rfl
  | cons e rest ih =>
    by_cases he : e.1 = k
    · have hne : ¬ e.1 = k' := fun hc => h (hc.symm.trans he)
      have hne' : ¬ k = k' := fun hc => h hc.symm
      simp only [aset, if_pos he, alookup, if_neg hne, if_neg hne']
    · simp only [aset, if_neg he, alookup, ih]

theorem alookup_append {α β : Type} [DecidableEq α] (k : α) (l m : List (α × β)) :
    alookup k (l ++ m)
      = match alookup k l with
        | some v => some v
        | none => alookup k m := by
  induction l with
  | nil => rfl
  | cons e rest ih =>
    by_cases he : e.1 = k
    · simp [alookup, he]
    · show alookup k (e :: (rest ++ m)) = _
      simp only [alookup, if_neg he, ih]

theorem alookup_asetOrAppend_self {α β : Type} [DecidableEq α] (k : α) (v : β)
    (l : List (α × β)) : alookup k (asetOrAppend k v l) = some v := by
  unfold asetOrAppend
  cases hl : alookup k l with
  | some w => simp [hl, alookup_aset_self v hl]
  | none =>
    simp only [hl, Option.isSome_none, Bool.false_eq_true, if_false]
    rw [alookup_append, hl]
    simp [alookup]

theorem alookup_asetOrAppend_ne {α β : Type} [DecidableEq α] {k k' : α} (v : β)
    (h : k' ≠ k) (l : List (α × β)) :
    alookup k' (asetOrAppend k v l) = alookup k' l := by
  unfold asetOrAppend
  cases hl : alookup k l with
  | some w => simp [alookup_aset_ne v h]
  | none =>
    simp only [hl, Option.isSome_none, Bool.false_eq_true, if_false]
    rw [alookup_append]
    cases hl' : alookup k' l with
    | some w => rfl
    | none =>
      have : ¬ k = k' := fun hc => h hc.symm
      simp [alookup, this]

theorem keysSorted_cons {β : Type} (a : Nat × β) (l : List (Nat × β))
    (h : keysSorted (a :: l) = true) :
    keysSorted l = true ∧ ∀ e ∈ l, a.1 < e.1 := by
  induction l generalizing a with
  | nil => exact ⟨rfl, by intro e he; simp at he⟩
  | cons b rest ih =>
    simp only [keysSorted, Bool.and_eq_true, decide_eq_true_eq] at h
    obtain ⟨hab, hrest⟩ := h
    obtain ⟨hs, hlt⟩ := ih b hrest
    refine ⟨hrest, ?_⟩
    intro e he
    rcases List.mem_cons.mp he with he' | he'
    · rw [he']; exact hab
    · exact Nat.lt_trans hab (hlt e he')

theorem alookup_none_of_lt {β : Type} (k : Nat) (l : List (Nat × β))
    (h : ∀ e ∈ l, k < e.1) : alookup k l = none := by
  induction l with
  | nil => rfl
  | cons e rest ih =>
    have h1 : k < e.1 := h e (List.mem_cons_self _ _)
    have : ¬ e.1 = k := fun hc => Nat.lt_irrefl k (hc ▸ h1)
    simp only [alookup, if_neg this]
    exact ih (fun e' he' => h e' (List.mem_cons_of_mem _ he'))

theorem alookup_insertLevel (k : Nat) (o : Order) :
    ∀ (l : List (Nat × List Order)), keysSorted l = true →
      alookup k (insertLevel k o l) = some ((alookup k l).getD [] ++ [o]) := by
  intro l
  induction l with
  | nil => intro _; simp [insertLevel, alookup]
  | cons e rest ih =>
    intro hs
    obtain ⟨hs', hlt⟩ := keysSorted_cons e rest hs
    rcases Nat.lt_trichotomy k e.1 with hlt' | heq | hgt
    · have h1 : ¬ e.1 = k := fun hc => Nat.lt_irrefl k (hc ▸ hlt')
      have h2 : alookup k rest = none :=
        alookup_none_of_lt k rest (fun e' he' => Nat.lt_trans hlt' (hlt e' he'))
      simp only [insertLevel, if_pos hlt', alookup, if_pos rfl, if_neg h1, h2]
      rfl
    · have h1 : ¬ k < e.1 := by rw [heq]; exact Nat.lt_irrefl _
      have h2 : e.1 = k := heq.symm
      simp only [insertLevel, if_neg h1, if_pos heq, alookup, if_pos h2]
      rfl
    · have h1 : ¬ k < e.1 := Nat.not_lt.mpr (Nat.le_of_lt hgt)
      have h2 : ¬ k = e.1 := fun hc => Nat.lt_irrefl k (hc ▸ hgt)
      have h3 : ¬ e.1 = k := fun hc => h2 hc.symm
      simp only [insertLevel, if_neg h1, if_neg h2, alookup, if_neg h3]
      exact ih hs'

theorem removeFromQueue_append (oid : Nat) (o : Order) (ho : o.id = oid) :
    ∀ (pre : List Order), (∀ x ∈ pre, x.id ≠ oid) →
      removeFromQueue oid (pre ++ [o]) = some (o, pre) := by
  intro pre
  induction pre with
  | nil => intro _; simp [removeFromQueue, ho]
  | cons x rest ih =>
    intro hpre
    have hx : ¬ x.id = oid := hpre x (List.mem_cons_self _ _)
    have := ih (fun y hy => hpre y (List.mem_cons_of_mem _ hy))
    show removeFromQueue oid (x :: (rest ++ [o])) = some (o, x :: rest)
    simp only [removeFromQueue, if_neg hx, this]
    rfl

theorem getOrInsertMarket_fst (ms : List (Pair × Market)) (pr : Pair) :
    (getOrInsertMarket ms pr).1 = (alookup pr ms).getD (Market.new pr) := by
  unfold getOrInsertMarket
  cases alookup pr ms <;> rfl

theorem alookup_getOrInsertMarket_snd (ms : List (Pair × Market)) (pr : Pair) :
    alookup pr (getOrInsertMarket ms pr).2 = some (getOrInsertMarket ms pr).1 := by
  unfold getOrInsertMarket
  cases hm : alookup pr ms with
  | some m => exact hm
  | none =>
    simp only
    rw [alookup_append, hm]
    simp [alookup]

theorem alookup_aset_getOrInsertMarket (ms : List (Pair × Market)) (pr : Pair) (v : Market) :
    alookup pr (aset pr v (getOrInsertMarket ms pr).2) = some v :=
  alookup_aset_self v (alookup_getOrInsertMarket_snd ms pr)

/-- Claim C1.  The total traded quantity that `process_order` books
against one resting order is bounded by that order's starting quantity —
refuted at the failing input: the bid for 15 re-matches the stale best
level and emits trades totalling 15 against ask id 1, which rested only
10. -/
theorem C1_resting_order_overfilled :
    (MatchingEngine.processOrder ⟨bC1⟩ oC1).map
        (fun r => ((r.1.filter (fun t => t.ask_order_id == 1)).map Trade.quantity).sum)
      = some 15 ∧
    askQtyTotal bC1 = 10 := by
  exact ⟨rfl, rfl⟩

/-- Claim C2.  Conservation of `Σ balances + Σ resting bid notional`
(numeraire) and of `Σ balances + Σ resting ask quantity` (base) — refuted
across ann's crossing bid: the numeraire total drops from 10 to 8 (the
missing price-improvement rebate) and the base total rises from 1 to 2
(the consumed ask is not removed from the book). -/
theorem C2_conservation_broken :
    (exC2.postOrder bobAsk prUB).isSome = true ∧
    (exC2a.postOrder annBid prUB).isSome = true ∧
    numeraireTotal exC2a prUB = 10 ∧
    numeraireTotal exC2b prUB = 8 ∧
    baseTotal exC2a prUB = 1 ∧
    baseTotal exC2b prUB = 2 := by
  exact ⟨rfl, rfl, rfl, rfl, rfl, rfl⟩

/-- Claim C3.  The bidder is credited the price-improvement difference
`Q * (P - P*)` — refuted: ann's bid at 10 crosses bob's resting ask at 8
for quantity 1, the trade executes at price 8, yet ann's numeraire
balance after the call is 0, not the 2 the claim requires. -/
theorem C3_rebate_not_credited :
    (findBidMatches (bookOf exC2a prUB) annBid).map
        (fun x => x.1.map (fun t => (t.price, t.quantity))) = some [(8, 1)] ∧
    balanceEntry exC2a "ann" "USD" = some 10 ∧
    (exC2a.postOrder annBid prUB).map (fun r => (r.2, balanceEntry r.1 "ann" "USD"))
      = some (Except.ok (), some 0) := by
  exact ⟨rfl, rfl, rfl⟩

/-- Claim C5.  A fully consumed resting order is removed from the book —
refuted: the bid at price 10 fully consumes ask id 1 resting at price 8,
but the removal is attempted at the taker's price level 10, so the book
comes back unchanged with the dead ask still resting. -/
theorem C5_consumed_maker_not_removed :
    MatchingEngine.processOrder ⟨bC5⟩ oC5
      = some ([⟨1, 2, "m", "t", 8, 1⟩], ⟨bC5⟩) ∧
    restingOrders bC5 Side.Ask = [⟨1, 8, 1, Side.Ask, "m", 1⟩] := by
  exact ⟨rfl, rfl⟩

/-- Claim C6, counterexample.  A failed `InsufficientBalance` submit
leaves every balance-map entry untouched — refuted: the failed debit of
10 USD from an account holding only BTC materialises a fresh `USD -> 0`
entry in its balance map. -/
theorem C6_failed_debit_adds_zero_entry :
    exC6.postOrder oC6 prUB
      = some (⟨[], ⟨[("a", ⟨"a", [("BTC", 5), ("USD", 0)], []⟩)]⟩⟩,
          Except.error "Insufficient balance") ∧
    balanceEntry exC6 "a" "USD" = none ∧
    balanceEntry (exStep exC6 oC6 prUB) "a" "USD" = some 0 := by
  exact ⟨rfl, rfl, rfl⟩

/-- Claim C7, counterexample.  Submitting to an unregistered pair fails
with `UnknownMarket` and registers nothing — refuted: the submit succeeds
and as a side effect the pair is registered with a market holding the
freshly rested bid. -/
theorem C7_submit_lazily_creates_market :
    alookup prUB exC7.markets = none ∧
    (exC7.postOrder oC7 prUB).map (fun r => r.2) = some (Except.ok ()) ∧
    (alookup prUB (exStep exC7 oC7 prUB).markets).isSome = true := by
  exact ⟨rfl, rfl, rfl⟩

/-- Claim C10.  Cancelling on a pair with no registered market returns the
order-not-found error yet permanently registers a fresh empty market for
the pair as a side effect. -/
theorem C10_cancel_unknown_pair_registers_market (ex : Exchange) (oid price : Nat)
    (side : Side) (pr : Pair) (h : alookup pr ex.markets = none) :
    (ex.cancelOrder oid price side pr).2 = Except.error "Order not found" ∧
    alookup pr (ex.cancelOrder oid price side pr).1.markets = some (Market.new pr) := by
  have hempty : (Market.new pr).cancelOrder oid side price = (none, Market.new pr) := by
    cases side <;> rfl
  have hg1 : (getOrInsertMarket ex.markets pr).1 = Market.new pr := by
    rw [getOrInsertMarket_fst, h]
    rfl
  unfold Exchange.cancelOrder
  simp only [hg1, hempty]
  exact ⟨trivial, alookup_aset_getOrInsertMarket ex.markets pr (Market.new pr)⟩

/-- Claim C10, witness: cancelling on the empty exchange registers the
market and reports the order as not found. -/
theorem C10_witness :
    (Exchange.new.cancelOrder 1 5 Side.Bid prUB).2 = Except.error "Order not found" ∧
    alookup prUB (Exchange.new.cancelOrder 1 5 Side.Bid prUB).1.markets
      = some (Market.new prUB) :=
  C10_cancel_unknown_pair_registers_market Exchange.new 1 5 Side.Bid prUB rfl

theorem removeBalance_error_values (am : AccountManager) (aid : String) (asset : Asset)
    (amt : Nat) (e : String)
    (h : (am.removeBalance aid asset amt).2 = Except.error e) :
    ∀ aid' asset', (amEntry (am.removeBalance aid asset amt).1 aid' asset').getD 0
      = (amEntry am aid' asset').getD 0 := by
  intro aid' asset'
  unfold AccountManager.removeBalance at h ⊢
  cases hacct : alookup aid am.accounts with
  | none => rfl
  | some acct =>
    rw [hacct] at h
    simp only at h ⊢
    by_cases hlt : (alookup asset acct.balances).getD 0 < amt
    · rw [if_pos hlt] at h ⊢
      simp only [amEntry]
      by_cases haid : aid' = aid
      · subst haid
        rw [alookup_asetOrAppend_self, hacct]
        simp only [Option.some_bind]
        cases hent : alookup asset acct.balances with
        | some b => simp [hent]
        | none =>
          simp only [hent, Option.isSome_none, Bool.false_eq_true, if_false]
          by_cases hasset : asset' = asset
          · subst hasset
            rw [alookup_append, hent]
            simp [alookup]
          · rw [alookup_append]
            cases hl' : alookup asset' acct.balances with
            | some w => rfl
            | none =>
              have : ¬ asset = asset' := fun hc => hasset hc.symm
              simp [alookup, this]
      · rw [alookup_asetOrAppend_ne _ haid]
    · rw [if_neg hlt] at h
      simp at h

/-- Claim C6, amended.  If `post_order` fails, the market registry, the
book, and every balance value (reading an absent entry as zero) are
exactly as before the call; only a zero-quantity balance-map entry for
the debited asset may have been materialised by the failed debit. -/
theorem C6_failed_submit_preserves_values (ex ex' : Exchange) (o : Order)
    (pr : Pair) (msg : String)
    (h : ex.postOrder o pr = some (ex', Except.error msg)) :
    ex'.markets = ex.markets ∧
    ∀ aid asset, balOrZero ex' aid asset = balOrZero ex aid asset := by
  simp only [Exchange.postOrder] at h
  split at h
  case _ e heq =>
    simp only [Option.some.injEq, Prod.mk.injEq] at h
    obtain ⟨hex, _⟩ := h
    subst hex
    refine ⟨rfl, ?_⟩
    intro aid asset
    exact removeBalance_error_values ex.account_manager o.account_id _ _ e heq aid asset
  case _ u heq =>
    split at h
    · exact absurd h (by simp)
    · simp only [Option.some.injEq, Prod.mk.injEq] at h
      exact absurd h.2 (by simp)

/-- Claim C6, witness for the amended theorem at the failed-debit
scenario: the registry and the balance values survive the failure. -/
theorem C6_amended_witness :
    (exStep exC6 oC6 prUB).markets = exC6.markets ∧
    balOrZero (exStep exC6 oC6 prUB) "a" "USD" = balOrZero exC6 "a" "USD" := by
  have h := C6_failed_submit_preserves_values exC6 (exStep exC6 oC6 prUB) oC6 prUB
    "Insufficient balance" (by rfl)
  exact ⟨h.1, h.2 "a" "USD"⟩

theorem processOrder_new_market (pr : Pair) (o : Order) :
    (Market.new pr).processOrder o
      = some ([], ⟨pr, ⟨(OrderBook.mk [] []).insertOrder o⟩⟩) := by
  cases ho : o.side <;>
    simp [Market.new, Market.processOrder, MatchingEngine.processOrder, ho,
      MatchingEngine.processBid, MatchingEngine.processAsk, findBidMatches,
      findAskMatches] <;>
    rw [← ho]

/-- Claim C7, amended.  Submitting an order for a pair with no registered
market does not fail with an unknown-market error: after a successful
reservation debit the Exchange lazily creates an empty market for the
pair, processes the order in it, returns success, and leaves the market
registered. -/
theorem C7_unknown_pair_lazily_creates (ex : Exchange) (o : Order) (pr : Pair)
    (hm : alookup pr ex.markets = none)
    (hd : (ex.account_manager.removeBalance o.account_id (reserveAsset pr o) (reserveAmt o)).2
      = Except.ok ()) :
    ∃ ex', ex.postOrder o pr = some (ex', Except.ok ()) ∧
      (alookup pr ex'.markets).isSome = true := by
  have ha : (match o.side with | Side.Bid => pr.numeraire | Side.Ask => pr.base)
      = reserveAsset pr o := rfl
  have hq : (match o.side with
      | Side.Bid => (o.quantity * o.price) % U64MOD
      | Side.Ask => o.quantity) = reserveAmt o := rfl
  have hg1 : (getOrInsertMarket ex.markets pr).1 = Market.new pr := by
    rw [getOrInsertMarket_fst, hm]
    rfl
  have hpm := processOrder_new_market pr o
  simp only [Exchange.postOrder, ha, hq, hd, hg1, hpm]
  refine ⟨_, rfl, ?_⟩
  rw [alookup_aset_getOrInsertMarket]
  rfl

/-- Claim C7, witness for the amended theorem: the concrete submit to the
unregistered pair succeeds and registers the market. -/
theorem C7_amended_witness :
    ∃ ex', exC7.postOrder oC7 prUB = some (ex', Except.ok ()) ∧
      (alookup prUB ex'.markets).isSome = true :=
  C7_unknown_pair_lazily_creates exC7 oC7 prUB rfl rfl

theorem findBidMatches_pos_rem (b : OrderBook) (o : Order) (ts : List Trade)
    (us : List (Nat × OrderUpdate)) (rem : Nat)
    (h : findBidMatches b o = some (ts, us, rem)) (hpos : 0 < rem) :
    ts = [] ∧ rem = o.quantity := by
  unfold findBidMatches at h
  cases hh : b.asks.head? with
  | none =>
    rw [hh] at h
    simp only [Option.some.injEq, Prod.mk.injEq] at h
    exact ⟨h.1.symm, h.2.2.symm⟩
  | some lvl =>
    rw [hh] at h
    by_cases hp : lvl.1 ≤ o.price
    · simp only [if_pos hp] at h
      cases hloop : bidLoopAux o lvl.1 lvl.2 o.quantity o.quantity with
      | none => rw [hloop] at h; simp at h
      | some pr' =>
        rw [hloop] at h
        simp only [Option.map_some', Option.some.injEq, Prod.mk.injEq] at h
        exact absurd (h.2.2 ▸ hpos) (Nat.lt_irrefl 0)
    · simp only [if_neg hp, Option.some.injEq, Prod.mk.injEq] at h
      exact ⟨h.1.symm, h.2.2.symm⟩

theorem findAskMatches_pos_rem (b : OrderBook) (o : Order) (ts : List Trade)
    (us : List (Nat × OrderUpdate)) (rem : Nat)
    (h : findAskMatches b o = some (ts, us, rem)) (hpos : 0 < rem) :
    ts = [] ∧ rem = o.quantity := by
  unfold findAskMatches at h
  cases hh : b.bids.head? with
  | none =>
    rw [hh] at h
    simp only [Option.some.injEq, Prod.mk.injEq] at h
    exact ⟨h.1.symm, h.2.2.symm⟩
  | some lvl =>
    rw [hh] at h
    by_cases hp : o.price ≤ negToPrice lvl.1
    · simp only [if_pos hp] at h
      cases hloop : askLoopAux o (negToPrice lvl.1) lvl.2 o.quantity o.quantity with
      | none => rw [hloop] at h; simp at h
      | some pr' =>
        rw [hloop] at h
        simp only [Option.map_some', Option.some.injEq, Prod.mk.injEq] at h
        exact absurd (h.2.2 ▸ hpos) (Nat.lt_irrefl 0)
    · simp only [if_neg hp, Option.some.injEq, Prod.mk.injEq] at h
      exact ⟨h.1.symm, h.2.2.symm⟩

theorem self_mem_insertLevel (k : Nat) (o : Order) :
    ∀ l : List (Nat × List Order), o ∈ (insertLevel k o l).flatMap Prod.snd := by
  intro l
  induction l with
  | nil => simp [insertLevel]
  | cons e rest ih =>
    by_cases h1 : k < e.1
    · simp [insertLevel, if_pos h1]
    · by_cases h2 : k = e.1
      · simp [insertLevel, if_neg h1, if_pos h2]
      · simp only [insertLevel, if_neg h1, if_neg h2, List.flatMap_cons,
          List.mem_append]
        exact Or.inr ih

theorem stored_mem_insertOrder (b : OrderBook) (x : Order) (s : Side) (hs : x.side = s) :
    ∃ o' ∈ restingOrders (b.insertOrder x) s,
      o'.id = x.id ∧ o'.quantity = x.quantity := by
  cases s with
  | Bid =>
    refine ⟨{ x with price := negToPrice (negPrice x.price) }, ?_, rfl, rfl⟩
    simp only [OrderBook.insertOrder, hs, restingOrders]
    exact self_mem_insertLevel (negPrice x.price) _ b.bids
  | Ask =>
    refine ⟨x, ?_, rfl, rfl⟩
    simp only [OrderBook.insertOrder, hs, restingOrders]
    exact self_mem_insertLevel x.price x b.asks

/-- Claim C4.  Whenever the remaining quantity after the matching loop is
strictly positive, `process_order` inserts the order onto the same-side
book with exactly that quantity (in the source this happens precisely
because a positive remainder forces the trade list to be empty). -/
theorem C4_residual_always_inserted (b : OrderBook) (o : Order) (ts : List Trade)
    (us : List (Nat × OrderUpdate)) (rem : Nat) (res : List Trade × MatchingEngine)
    (hrun : MatchingEngine.processOrder ⟨b⟩ o = some res)
    (hfind : findMatches b o = some (ts, us, rem))
    (hpos : 0 < rem) :
    ∃ o' ∈ restingOrders res.2.orderbook o.side, o'.id = o.id ∧ o'.quantity = rem := by
  cases ho : o.side with
  | Bid =>
    unfold findMatches at hfind
    rw [ho] at hfind
    simp only at hfind
    obtain ⟨hts, hq⟩ := findBidMatches_pos_rem b o ts us rem hfind hpos
    subst hts
    have hps : MatchingEngine.processOrder ⟨b⟩ o
        = some ([], ⟨b.insertOrder { o with quantity := rem }⟩) := by
      rw [MatchingEngine.processOrder, ho]
      simp only
      rw [MatchingEngine.processBid]
      simp only
      rw [hfind]
      simp [ho]
    rw [hps] at hrun
    injection hrun with hr
    subst hr
    exact stored_mem_insertOrder b { o with quantity := rem } Side.Bid ho
  | Ask =>
    unfold findMatches at hfind
    rw [ho] at hfind
    simp only at hfind
    obtain ⟨hts, hq⟩ := findAskMatches_pos_rem b o ts us rem hfind hpos
    subst hts
    have hps : MatchingEngine.processOrder ⟨b⟩ o
        = some ([], ⟨b.insertOrder { o with quantity := rem }⟩) := by
      rw [MatchingEngine.processOrder, ho]
      simp only
      rw [MatchingEngine.processAsk]
      simp only
      rw [hfind]
      simp [ho]
    rw [hps] at hrun
    injection hrun with hr
    subst hr
    exact stored_mem_insertOrder b { o with quantity := rem } Side.Ask ho

/-- Claim C4, witness: a non-marketable bid for quantity 2 leaves
remainder 2 after the loop and rests on the bid side with quantity 2. -/
theorem C4_witness :
    ∃ o' ∈ restingOrders
        ((OrderBook.mk [] []).insertOrder { oC9 with quantity := 3 }) oC9.side,
      o'.id = oC9.id ∧ o'.quantity = 3 :=
  C4_residual_always_inserted (OrderBook.mk [] []) oC9 [] [] 3
    ([], ⟨(OrderBook.mk [] []).insertOrder { oC9 with quantity := 3 }⟩)
    (by rfl) (by rfl) (by decide)

theorem mem_of_head_eq {γ : Type} {l : List γ} {x : γ} (h : l.head? = some x) : x ∈ l := by
  cases l with
  | nil => simp at h
  | cons a rest =>
    injection h with h'
    rw [h']
    exact List.mem_cons_self _ _

theorem bidPass_trades (bid : Order) (p : Nat) :
    ∀ (os : List Order) (r : Nat) (t : Trade), t ∈ (bidPass bid p r os).1 →
      ∃ a ∈ os, a.id = t.ask_order_id ∧ t.price = p := by
  intro os
  induction os with
  | nil => intro r t ht; simp [bidPass] at ht
  | cons ask rest ih =>
    intro r t ht
    simp only [bidPass] at ht
    by_cases hm : 0 < min r ask.quantity
    · rw [if_pos hm] at ht
      by_cases hz : r - min r ask.quantity = 0
      · rw [if_pos hz] at ht
        simp only [List.mem_singleton] at ht
        subst ht
        exact ⟨ask, List.mem_cons_self _ _, rfl, rfl⟩
      · rw [if_neg hz] at ht
        rcases List.mem_cons.mp ht with h1 | h2
        · subst h1
          exact ⟨ask, List.mem_cons_self _ _, rfl, rfl⟩
        · obtain ⟨a, ha, h3, h4⟩ := ih _ t h2
          exact ⟨a, List.mem_cons_of_mem _ ha, h3, h4⟩
    · rw [if_neg hm] at ht
      obtain ⟨a, ha, h3, h4⟩ := ih _ t ht
      exact ⟨a, List.mem_cons_of_mem _ ha, h3, h4⟩

theorem bidLoopAux_trades (bid : Order) (p : Nat) (os : List Order) :
    ∀ (fuel r : Nat) (pr : List Trade × List (Nat × OrderUpdate)),
      bidLoopAux bid p os fuel r = some pr →
      ∀ t ∈ pr.1, ∃ a ∈ os, a.id = t.ask_order_id ∧ t.price = p := by
  intro fuel
  induction fuel with
  | zero =>
    intro r pr h t ht
    cases r with
    | zero =>
      simp only [bidLoopAux, Option.some.injEq] at h
      rw [← h] at ht
      simp at ht
    | succ r => simp [bidLoopAux] at h
  | succ fuel ih =>
    intro r pr h t ht
    cases r with
    | zero =>
      simp only [bidLoopAux, Option.some.injEq] at h
      rw [← h] at ht
      simp at ht
    | succ r =>
      simp only [bidLoopAux] at h
      by_cases hlt : (bidPass bid p (r + 1) os).2.2 < r + 1
      · rw [if_pos hlt] at h
        cases hrec : bidLoopAux bid p os fuel (bidPass bid p (r + 1) os).2.2 with
        | none => rw [hrec] at h; exact absurd h (by simp)
        | some pr2 =>
          rw [hrec] at h
          injection h with h'
          rw [← h'] at ht
          rcases List.mem_append.mp ht with h1 | h2
          · exact bidPass_trades bid p os (r + 1) t h1
          · exact ih _ pr2 hrec t h2
      · rw [if_neg hlt] at h
        exact absurd h (by simp)

theorem askPass_trades (ask : Order) (p : Nat) :
    ∀ (os : List Order) (r : Nat) (t : Trade), t ∈ (askPass ask p r os).1 →
      ∃ a ∈ os, a.id = t.bid_order_id ∧ t.price = p := by
  intro os
  induction os with
  | nil => intro r t ht; simp [askPass] at ht
  | cons bid rest ih =>
    intro r t ht
    simp only [askPass] at ht
    by_cases hm : 0 < min r bid.quantity
    · rw [if_pos hm] at ht
      by_cases hz : r - min r bid.quantity = 0
      · rw [if_pos hz] at ht
        simp only [List.mem_singleton] at ht
        subst ht
        exact ⟨bid, List.mem_cons_self _ _, rfl, rfl⟩
      · rw [if_neg hz] at ht
        rcases List.mem_cons.mp ht with h1 | h2
        · subst h1
          exact ⟨bid, List.mem_cons_self _ _, rfl, rfl⟩
        · obtain ⟨a, ha, h3, h4⟩ := ih _ t h2
          exact ⟨a, List.mem_cons_of_mem _ ha, h3, h4⟩
    · rw [if_neg hm] at ht
      obtain ⟨a, ha, h3, h4⟩ := ih _ t ht
      exact ⟨a, List.mem_cons_of_mem _ ha, h3, h4⟩

theorem askLoopAux_trades (ask : Order) (p : Nat) (os : List Order) :
    ∀ (fuel r : Nat) (pr : List Trade × List (Nat × OrderUpdate)),
      askLoopAux ask p os fuel r = some pr →
      ∀ t ∈ pr.1, ∃ a ∈ os, a.id = t.bid_order_id ∧ t.price = p := by
  intro fuel
  induction fuel with
  | zero =>
    intro r pr h t ht
    cases r with
    | zero =>
      simp only [askLoopAux, Option.some.injEq] at h
      rw [← h] at ht
      simp at ht
    | succ r => simp [askLoopAux] at h
  | succ fuel ih =>
    intro r pr h t ht
    cases r with
    | zero =>
      simp only [askLoopAux, Option.some.injEq] at h
      rw [← h] at ht
      simp at ht
    | succ r =>
      simp only [askLoopAux] at h
      by_cases hlt : (askPass ask p (r + 1) os).2.2 < r + 1
      · rw [if_pos hlt] at h
        cases hrec : askLoopAux ask p os fuel (askPass ask p (r + 1) os).2.2 with
        | none => rw [hrec] at h; exact absurd h (by simp)
        | some pr2 =>
          rw [hrec] at h
          injection h with h'
          rw [← h'] at ht
          rcases List.mem_append.mp ht with h1 | h2
          · exact askPass_trades ask p os (r + 1) t h1
          · exact ih _ pr2 hrec t h2
      · rw [if_neg hlt] at h
        exact absurd h (by simp)

/-- Claim C8.  Every trade emitted by `process_order` carries the price of
the resting (maker) order it names: there is a maker on the opposing side
of the pre-call book whose id the trade names and whose stored price
equals the trade price (so the taker price is never used, it only bounds
which levels may match). -/
theorem C8_trade_executes_at_maker_price (b : OrderBook) (o : Order)
    (res : List Trade × MatchingEngine) (t : Trade)
    (hwf : wfBook b)
    (hrun : MatchingEngine.processOrder ⟨b⟩ o = some res)
    (ht : t ∈ res.1) :
    ∃ maker ∈ restingOrders b (oppSide o.side),
      maker.id = makerIdOf o.side t ∧ t.price = maker.price := by
  cases ho : o.side with
  | Bid =>
    rw [MatchingEngine.processOrder, ho] at hrun
    simp only at hrun
    rw [MatchingEngine.processBid] at hrun
    simp only at hrun
    cases hf : findBidMatches b o with
    | none => rw [hf] at hrun; exact absurd hrun (by simp)
    | some trip =>
      obtain ⟨ts, us, rem⟩ := trip
      rw [hf] at hrun
      simp only at hrun
      have hres1 : res.1 = ts := by
        by_cases he : ts.isEmpty = true
        · rw [if_pos he] at hrun
          injection hrun with h'
          rw [← h']
        · rw [if_neg he] at hrun
          injection hrun with h'
          rw [← h']
      rw [hres1] at ht
      unfold findBidMatches at hf
      cases hh : b.asks.head? with
      | none =>
        rw [hh] at hf
        simp only [Option.some.injEq, Prod.mk.injEq] at hf
        rw [← hf.1] at ht
        simp at ht
      | some lvl =>
        obtain ⟨p, os⟩ := lvl
        rw [hh] at hf
        simp only at hf
        by_cases hp : p ≤ o.price
        · rw [if_pos hp] at hf
          cases hloop : bidLoopAux o p os o.quantity o.quantity with
          | none => rw [hloop] at hf; simp at hf
          | some pr2 =>
            rw [hloop] at hf
            simp only [Option.map_some', Option.some.injEq, Prod.mk.injEq] at hf
            have ht' : t ∈ pr2.1 := by rw [hf.1]; exact ht
            obtain ⟨a, ha, haid, hap⟩ :=
              bidLoopAux_trades o p os o.quantity o.quantity pr2 hloop t ht'
            have hlvl : (p, os) ∈ b.asks := mem_of_head_eq hh
            refine ⟨a, ?_, haid, ?_⟩
            · simp only [oppSide, restingOrders]
              exact List.mem_flatMap.mpr ⟨(p, os), hlvl, ha⟩
            · rw [hap, (hwf.1 (p, os) hlvl a ha).2]
        · rw [if_neg hp] at hf
          simp only [Option.some.injEq, Prod.mk.injEq] at hf
          rw [← hf.1] at ht
          simp at ht
  | Ask =>
    rw [MatchingEngine.processOrder, ho] at hrun
    simp only at hrun
    rw [MatchingEngine.processAsk] at hrun
    simp only at hrun
    cases hf : findAskMatches b o with
    | none => rw [hf] at hrun; exact absurd hrun (by simp)
    | some trip =>
      obtain ⟨ts, us, rem⟩ := trip
      rw [hf] at hrun
      simp only at hrun
      have hres1 : res.1 = ts := by
        by_cases he : ts.isEmpty = true
        · rw [if_pos he] at hrun
          injection hrun with h'
          rw [← h']
        · rw [if_neg he] at hrun
          injection hrun with h'
          rw [← h']
      rw [hres1] at ht
      unfold findAskMatches at hf
      cases hh : b.bids.head? with
      | none =>
        rw [hh] at hf
        simp only [Option.some.injEq, Prod.mk.injEq] at hf
        rw [← hf.1] at ht
        simp at ht
      | some lvl =>
        obtain ⟨np, os⟩ := lvl
        rw [hh] at hf
        simp only at hf
        by_cases hp : o.price ≤ negToPrice np
        · rw [if_pos hp] at hf
          cases hloop : askLoopAux o (negToPrice np) os o.quantity o.quantity with
          | none => rw [hloop] at hf; simp at hf
          | some pr2 =>
            rw [hloop] at hf
            simp only [Option.map_some', Option.some.injEq, Prod.mk.injEq] at hf
            have ht' : t ∈ pr2.1 := by rw [hf.1]; exact ht
            obtain ⟨a, ha, haid, hap⟩ :=
              askLoopAux_trades o (negToPrice np) os o.quantity o.quantity pr2 hloop t ht'
            have hlvl : (np, os) ∈ b.bids := mem_of_head_eq hh
            refine ⟨a, ?_, haid, ?_⟩
            · simp only [oppSide, restingOrders]
              exact List.mem_flatMap.mpr ⟨(np, os), hlvl, ha⟩
            · rw [hap, (hwf.2 (np, os) hlvl a ha).2]
        · rw [if_neg hp] at hf
          simp only [Option.some.injEq, Prod.mk.injEq] at hf
          rw [← hf.1] at ht
          simp at ht

/-- Claim C8, witness: the concrete crossing bid at price 10 produces a
trade priced at the resting ask's price 8. -/
theorem C8_witness :
    ∃ maker ∈ restingOrders bC8w (oppSide oC8w.side),
      maker.id = makerIdOf oC8w.side tC8w ∧ tC8w.price = maker.price :=
  C8_trade_executes_at_maker_price bC8w oC8w ([tC8w], ⟨bC8w⟩) tC8w
    (by constructor <;> decide) rfl (by decide)

theorem processOrder_nonMarketable (e : MatchingEngine) (o : Order)
    (h : nonMarketableB e.orderbook o = true) :
    e.processOrder o = some ([], ⟨e.orderbook.insertOrder o⟩) := by
  cases ho : o.side with
  | Bid =>
    have hfind : findBidMatches e.orderbook o = some ([], [], o.quantity) := by
      unfold nonMarketableB at h
      rw [ho] at h
      unfold findBidMatches
      cases hh : e.orderbook.asks.head? with
      | none => rfl
      | some lvl =>
        obtain ⟨p, os⟩ := lvl
        rw [hh] at h
        simp only at h
        have hlt : o.price < p := of_decide_eq_true h
        simp only
        rw [if_neg (Nat.not_le.mpr hlt)]
    rw [MatchingEngine.processOrder, ho]
    simp only
    rw [MatchingEngine.processBid]
    simp only
    rw [hfind]
    rfl
  | Ask =>
    have hfind : findAskMatches e.orderbook o = some ([], [], o.quantity) := by
      unfold nonMarketableB at h
      rw [ho] at h
      unfold findAskMatches
      cases hh : e.orderbook.bids.head? with
      | none => rfl
      | some lvl =>
        obtain ⟨np, os⟩ := lvl
        rw [hh] at h
        simp only at h
        have hlt : negToPrice np < o.price := of_decide_eq_true h
        simp only
        rw [if_neg (Nat.not_le.mpr hlt)]
    rw [MatchingEngine.processOrder, ho]
    simp only
    rw [MatchingEngine.processAsk]
    simp only
    rw [hfind]
    rfl

theorem removeBalance_ok (am : AccountManager) (aid : String) (asset : Asset)
    (amt : Nat) (acct : Account) (b : Nat)
    (h1 : alookup aid am.accounts = some acct)
    (h2 : alookup asset acct.balances = some b)
    (h3 : amt ≤ b) :
    am.removeBalance aid asset amt
      = (⟨asetOrAppend aid { acct with balances := aset asset (b - amt) acct.balances }
            am.accounts⟩, Except.ok ()) := by
  unfold AccountManager.removeBalance
  rw [h1]
  simp only [h2, Option.isSome_some, if_true, Option.getD_some]
  rw [if_neg (Nat.not_lt.mpr h3)]

theorem addBalance_existing (am : AccountManager) (aid : String) (asset : Asset)
    (amount : Nat) (acct : Account) (b : Nat)
    (h1 : alookup aid am.accounts = some acct)
    (h2 : alookup asset acct.balances = some b) :
    am.addBalance aid asset amount
      = ⟨asetOrAppend aid
          { acct with balances := asetOrAppend asset ((b + amount) % U64MOD) acct.balances }
          am.accounts⟩ := by
  unfold AccountManager.addBalance
  rw [h1]
  simp only [Option.getD_some, h2]

theorem removeOrder_insertOrder_fst (b : OrderBook) (o : Order)
    (hs : keysSortedBook b = true) (hid : idFree b o.id = true)
    (hp : o.price ≤ U64MAX) :
    ((b.insertOrder o).removeOrder o.id o.side o.price).1 = some o := by
  have hrt : negToPrice (negPrice o.price) = o.price := by
    unfold negToPrice negPrice
    exact Nat.sub_sub_self hp
  have hs2 := hs
  unfold keysSortedBook at hs2
  simp only [Bool.and_eq_true] at hs2
  obtain ⟨hsb, hsa⟩ := hs2
  have hid2 := hid
  unfold idFree at hid2
  simp only [Bool.and_eq_true] at hid2
  obtain ⟨hidb, hida⟩ := hid2
  cases ho : o.side with
  | Bid =>
    have ho2 : Order.mk o.id (negToPrice (negPrice o.price)) o.quantity Side.Bid
        o.account_id o.timestamp = o := by
      rw [hrt, ← ho]
    have hins : b.insertOrder o
        = { b with bids := insertLevel (negPrice o.price) o b.bids } := by
      unfold OrderBook.insertOrder
      rw [ho]
      simp only [ho2]
    rw [hins]
    unfold OrderBook.removeOrder
    simp only
    rw [alookup_insertLevel (negPrice o.price) o b.bids hsb]
    simp only
    have hq : removeFromQueue o.id
        ((alookup (negPrice o.price) b.bids).getD [] ++ [o])
        = some (o, (alookup (negPrice o.price) b.bids).getD []) := by
      apply removeFromQueue_append o.id o rfl
      intro x hx
      cases hl : alookup (negPrice o.price) b.bids with
      | none => rw [hl] at hx; simp at hx
      | some os0 =>
        rw [hl] at hx
        simp only [Option.getD_some] at hx
        have hmem := alookup_mem hl
        have h5 := List.all_eq_true.mp hidb (negPrice o.price, os0) hmem
        have h6 := List.all_eq_true.mp h5 x hx
        intro hc
        rw [hc] at h6
        simp at h6
    rw [hq]
  | Ask =>
    have hins : b.insertOrder o
        = { b with asks := insertLevel o.price o b.asks } := by
      unfold OrderBook.insertOrder
      rw [ho]
    rw [hins]
    unfold OrderBook.removeOrder
    simp only
    rw [alookup_insertLevel o.price o b.asks hsa]
    simp only
    have hq : removeFromQueue o.id ((alookup o.price b.asks).getD [] ++ [o])
        = some (o, (alookup o.price b.asks).getD []) := by
      apply removeFromQueue_append o.id o rfl
      intro x hx
      cases hl : alookup o.price b.asks with
      | none => rw [hl] at hx; simp at hx
      | some os0 =>
        rw [hl] at hx
        simp only [Option.getD_some] at hx
        have hmem := alookup_mem hl
        have h5 := List.all_eq_true.mp hida (o.price, os0) hmem
        have h6 := List.all_eq_true.mp h5 x hx
        intro hc
        rw [hc] at h6
        simp at h6
    rw [hq]

theorem postOrder_nonMarketable_eq (ex : Exchange) (o : Order) (pr : Pair)
    (acct : Account) (b : Nat)
    (hacct : alookup o.account_id ex.account_manager.accounts = some acct)
    (hbal : alookup (reserveAsset pr o) acct.balances = some b)
    (hble : reserveAmt o ≤ b)
    (hnm : nonMarketableB (bookOf ex pr) o = true) :
    ex.postOrder o pr
      = some (⟨aset pr
            (Market.mk (getOrInsertMarket ex.markets pr).1.pair
              ⟨(bookOf ex pr).insertOrder o⟩)
            (getOrInsertMarket ex.markets pr).2,
          ⟨asetOrAppend o.account_id
            { acct with
                balances := aset (reserveAsset pr o) (b - reserveAmt o) acct.balances }
            ex.account_manager.accounts⟩⟩,
        Except.ok ()) := by
  have ha : (match o.side with | Side.Bid => pr.numeraire | Side.Ask => pr.base)
      = reserveAsset pr o := rfl
  have hq : (match o.side with
      | Side.Bid => (o.quantity * o.price) % U64MOD
      | Side.Ask => o.quantity) = reserveAmt o := rfl
  have hrb := removeBalance_ok ex.account_manager o.account_id (reserveAsset pr o)
    (reserveAmt o) acct b hacct hbal hble
  have hb1 : (getOrInsertMarket ex.markets pr).1.matching_engine.orderbook
      = bookOf ex pr := by
    rw [getOrInsertMarket_fst]
    rfl
  have hproc : (getOrInsertMarket ex.markets pr).1.matching_engine.processOrder o
      = some ([], ⟨(bookOf ex pr).insertOrder o⟩) := by
    have h2 := processOrder_nonMarketable
      (getOrInsertMarket ex.markets pr).1.matching_engine o (by rw [hb1]; exact hnm)
    rw [hb1] at h2
    exact h2
  have hm1 : Market.processOrder (getOrInsertMarket ex.markets pr).1 o
      = some ([], Market.mk (getOrInsertMarket ex.markets pr).1.pair
          ⟨(bookOf ex pr).insertOrder o⟩) := by
    unfold Market.processOrder
    rw [hproc]
    rfl
  unfold Exchange.postOrder
  simp only [ha, hq]
  rw [hrb]
  simp only
  rw [hm1]
  rfl

theorem cancelOrder_found (ex : Exchange) (oid price : Nat) (side : Side) (pr : Pair)
    (mkt : Market) (ord : Order)
    (hm : alookup pr ex.markets = some mkt)
    (hrm : (mkt.matching_engine.orderbook.removeOrder oid side price).1 = some ord) :
    ex.cancelOrder oid price side pr
      = (⟨aset pr (Market.mk mkt.pair
            ⟨(mkt.matching_engine.orderbook.removeOrder oid side price).2⟩) ex.markets,
          refundFor ex.account_manager ord side pr⟩,
        Except.ok ()) := by
  have hg : getOrInsertMarket ex.markets pr = (mkt, ex.markets) := by
    unfold getOrInsertMarket
    rw [hm]
  unfold Exchange.cancelOrder
  rw [hg]
  simp only [Market.cancelOrder, MatchingEngine.cancelOrder, refundFor]
  rw [hrm]

theorem refund_match_eq (am : AccountManager) (o : Order) (pr : Pair) :
    refundFor am o o.side pr
      = am.addBalance o.account_id (reserveAsset pr o) (reserveAmt o) := by
  cases ho : o.side <;> simp [refundFor, reserveAsset, reserveAmt, ho]

/-- Claim C9.  Submitting a non-marketable order with sufficient balance
and a fresh id, then cancelling it by id, side and price, restores every
balance-map entry of the submitter to its pre-submit value. -/
theorem C9_submit_cancel_restores_balances (ex : Exchange) (o : Order) (pr : Pair)
    (acct : Account) (b : Nat)
    (hacct : alookup o.account_id ex.account_manager.accounts = some acct)
    (hbal : alookup (reserveAsset pr o) acct.balances = some b)
    (hble : reserveAmt o ≤ b) (hblt : b < U64MOD)
    (hp : o.price ≤ U64MAX)
    (hnm : nonMarketableB (bookOf ex pr) o = true)
    (hid : idFree (bookOf ex pr) o.id = true)
    (hs : keysSortedBook (bookOf ex pr) = true) :
    ∃ ex1, ex.postOrder o pr = some (ex1, Except.ok ()) ∧
      (ex1.cancelOrder o.id o.price o.side pr).2 = Except.ok () ∧
      ∀ asset, balanceEntry (ex1.cancelOrder o.id o.price o.side pr).1 o.account_id asset
        = balanceEntry ex o.account_id asset := by
  have hpo := postOrder_nonMarketable_eq ex o pr acct b hacct hbal hble hnm
  have hrm := removeOrder_insertOrder_fst (bookOf ex pr) o hs hid hp
  have hco := cancelOrder_found
    ⟨aset pr
        (Market.mk (getOrInsertMarket ex.markets pr).1.pair
          ⟨(bookOf ex pr).insertOrder o⟩)
        (getOrInsertMarket ex.markets pr).2,
      ⟨asetOrAppend o.account_id
        { acct with
            balances := aset (reserveAsset pr o) (b - reserveAmt o) acct.balances }
        ex.account_manager.accounts⟩⟩
    o.id o.price o.side pr
    (Market.mk (getOrInsertMarket ex.markets pr).1.pair
      ⟨(bookOf ex pr).insertOrder o⟩)
    o
    (alookup_aset_getOrInsertMarket ex.markets pr _)
    hrm
  refine ⟨_, hpo, ?_, ?_⟩
  · rw [hco]
  · intro asset
    rw [hco]
    simp only [balanceEntry, amEntry]
    rw [refund_match_eq]
    have h1 : alookup o.account_id
        (asetOrAppend o.account_id
          { acct with
              balances := aset (reserveAsset pr o) (b - reserveAmt o) acct.balances }
          ex.account_manager.accounts)
        = some { acct with
            balances := aset (reserveAsset pr o) (b - reserveAmt o) acct.balances } :=
      alookup_asetOrAppend_self _ _ _
    have h2 : alookup (reserveAsset pr o)
        (aset (reserveAsset pr o) (b - reserveAmt o) acct.balances)
        = some (b - reserveAmt o) :=
      alookup_aset_self _ hbal
    have hadd := addBalance_existing
      ⟨asetOrAppend o.account_id
        { acct with
            balances := aset (reserveAsset pr o) (b - reserveAmt o) acct.balances }
        ex.account_manager.accounts⟩
      o.account_id (reserveAsset pr o) (reserveAmt o)
      { acct with
          balances := aset (reserveAsset pr o) (b - reserveAmt o) acct.balances }
      (b - reserveAmt o) h1 h2
    rw [hadd]
    simp only
    rw [alookup_asetOrAppend_self, hacct]
    simp only [Option.some_bind]
    have hv2 : (b - reserveAmt o + reserveAmt o) % U64MOD = b := by
      rw [Nat.sub_add_cancel hble, Nat.mod_eq_of_lt hblt]
    by_cases hcase : asset = reserveAsset pr o
    · subst hcase
      rw [alookup_asetOrAppend_self, hv2, hbal]
    · have hne : asset ≠ reserveAsset pr o := hcase
      rw [alookup_asetOrAppend_ne _ hne, alookup_aset_ne _ hne]

/-- Claim C9, witness: submit the concrete non-marketable bid on the
funded exchange, cancel it, and find both balances restored. -/
theorem C9_witness :
    ∃ ex1, exC9.postOrder oC9 prUB = some (ex1, Except.ok ()) ∧
      (ex1.cancelOrder oC9.id oC9.price oC9.side prUB).2 = Except.ok () ∧
      ∀ asset, balanceEntry (ex1.cancelOrder oC9.id oC9.price oC9.side prUB).1
          oC9.account_id asset
        = balanceEntry exC9 oC9.account_id asset :=
  C9_submit_cancel_restores_balances exC9 oC9 prUB ⟨"a", [("USD", 50), ("BTC", 7)], []⟩ 50
    rfl rfl (by decide) (by decide) (by decide) rfl rfl rfl

end Exchanges
